import Mathlib

/-!
Verification of the snippet-sharing CRUD service implemented in
`snippets/models.py`, `snippets/permissions.py`, `snippets/serializers.py`
and `snippets/views.py`.

The embedding translates the repository's code shallowly:

* `Snippet` model fields (`models.py`, class `Snippet`) become the
  `SnippetRec` structure; `Snippet.save` becomes `computeHighlighted`
  applied on every write.
* The pygments collaborators (`get_lexer_by_name`, `HtmlFormatter`,
  `highlight`) are an external library, not part of this repository;
  they are modelled from the spec (section 4.1) by the `highlight`
  function below.
* The serializer (`serializers.py`, class `SnippetSerializer`) becomes
  `validInput` (field validation) and `serializeSnippet` (wire output
  over the declared `Meta.fields` list, duplicates collapsed the way a
  field dictionary collapses them).
* The permission classes (`IsAuthenticatedOrReadOnly` from the framework,
  `IsOwnerOrReadOnly` from `permissions.py`) become boolean decision
  functions, and the generic views `SnippetList` / `SnippetDetail`
  (`views.py`) become the request dispatchers `snippetListRequest` and
  `snippetDetailRequest` following the framework's gate order:
  view-level permission check, object fetch, object-level permission
  check, handler.
-/

/-- The language and style catalogs (`LANGUAGE_CHOICES`, `STYLE_CHOICES` in
`models.py`) are produced at load time from the external pygments library;
the embedding abstracts them as an arbitrary pair of finite string lists. -/
structure Catalog where
  languages : List String
  styles : List String
deriving DecidableEq

/-- A row of the external identity store (`auth.user`): id and username. -/
structure User where
  id : Nat
  username : String
deriving DecidableEq

/-- A stored snippet row: the fields declared on the `Snippet` model in
`models.py` (`created` abstracted to a logical clock value). -/
structure SnippetRec where
  id : Nat
  created : Nat
  owner : Nat
  title : String
  code : String
  linenos : Bool
  language : String
  style : String
  highlighted : String
deriving DecidableEq

/-- The arguments `Snippet.save` passes to pygments' `HtmlFormatter`:
style, the line-number switch, full-document mode, and an optional title. -/
structure HtmlFormatter where
  style : String
  linenos : Bool
  full : Bool
  title : Option String
deriving DecidableEq

/-- HTML-escaping of text interpolated into markup, as pygments performs
on the source code it renders. -/
def htmlEscape (s : String) : String :=
  String.join (s.data.map (fun c =>
    if c = '<' then "&lt;"
    else if c = '>' then "&gt;"
    else if c = '&' then "&amp;"
    else String.singleton c))

/-- The fixed opening of a full HTML document produced by the formatter. -/
def docOpen : String := "<!DOCTYPE html>\n<html>\n"

/-- The fixed closing of a full HTML document produced by the formatter. -/
def docClose : String := "</body>\n</html>\n"

/-- The head element of the rendered document; its `title` element carries
the formatter's title option when one was supplied. -/
def headBlock (title : Option String) : String :=
  "<head><title>" ++ title.getD "" ++ "</title></head>\n<body>\n"

/-- The body heading rendered for the title: present exactly when a title
option was supplied to the formatter. -/
def headingBlock (title : Option String) : String :=
  match title with
  | some t => "<h2>" ++ t ++ "</h2>\n"
  | none => ""

/-- The highlighted code markup: a table wrapper when line numbers were
requested, otherwise a plain highlight div carrying the style and lexer. -/
def codeBlock (code lexerName : String) (fmt : HtmlFormatter) : String :=
  if fmt.linenos then
    "<table class=\"highlighttable\"><tr><td class=\"linenos\"></td><td><pre>"
      ++ htmlEscape code ++ "</pre></td></tr></table>"
  else
    "<div class=\"highlight-" ++ fmt.style ++ " " ++ lexerName ++ "\"><pre>"
      ++ htmlEscape code ++ "</pre></div>"

/-- Modelled from the spec: pygments' `highlight(code, lexer, formatter)`
call used by `Snippet.save` is external to this repository. Per section 4.1
of the design, a full-mode formatter deterministically renders a complete,
self-contained HTML document embedding the highlighted markup, with a title
heading exactly when a title option was supplied. -/
def highlight (code lexerName : String) (fmt : HtmlFormatter) : String :=
  docOpen ++ (headBlock fmt.title ++ (headingBlock fmt.title ++ (codeBlock code lexerName fmt ++ docClose)))

/-- The options dictionary built by `Snippet.save` — a title entry is put
into the formatter options exactly when the title is a non-empty string
(Python string truthiness). -/
def saveTitleOptions (title : String) : Option String :=
  if title = "" then none else some title

/-- The body of `Snippet.save` (`models.py`): build the lexer from the
`language` field, a formatter from `style`, `linenos` and the optional
title, in full-document mode, and store the result in `highlighted`. -/
def computeHighlighted (code language style title : String) (linenos : Bool) : String :=
  highlight code language
    { style := style, linenos := linenos, full := true, title := saveTitleOptions title }

/-- The persistent store: user rows, snippet rows, the next autoincrement
primary key, and a logical clock supplying `created` timestamps. -/
structure Store where
  users : List User
  snippets : List SnippetRec
  nextId : Nat
  clock : Nat
deriving DecidableEq

/-- A fresh database: no snippets, primary keys starting at 1. -/
def initStore (users : List User) : Store :=
  { users := users, snippets := [], nextId := 1, clock := 0 }

/-- Resolve an owner id to the owner's username, as the serializer's
`owner.username` source traversal does. -/
def usernameOf (st : Store) (uid : Nat) : String :=
  match st.users.find? (fun u => u.id == uid) with
  | some u => u.username
  | none => ""

/-- `get_object` of the detail view: look up a snippet by primary key. -/
def getSnippet (st : Store) (pk : Nat) : Option SnippetRec :=
  st.snippets.find? (fun s => s.id == pk)

/-- Client input to the snippet serializer: each client-writable field is
optionally present; `owner` stands for a client-supplied owner value, which
the serializer's read-only owner field never consumes. -/
structure SnippetInput where
  title : Option String
  code : Option String
  linenos : Option Bool
  language : Option String
  style : Option String
  owner : Option String
deriving DecidableEq

/-- The `code` field is a required, non-blank serializer field (model
`TextField` without `blank=True`): validation passes only when a non-empty
value is supplied. -/
def codeProvided (inp : SnippetInput) : Bool :=
  match inp.code with
  | some c => !(c == "")
  | none => false

/-- The `title` field (`CharField(max_length=100, blank=True)`): when
supplied it may be blank but is limited to 100 characters. -/
def titleOk (inp : SnippetInput) : Bool :=
  match inp.title with
  | some t => decide (t.length ≤ 100)
  | none => true

/-- The `language` choice field: when supplied, the value must be one of
the catalog's language keys. -/
def languageOk (cat : Catalog) (inp : SnippetInput) : Bool :=
  match inp.language with
  | some l => cat.languages.contains l
  | none => true

/-- The `style` choice field: when supplied, the value must be one of the
catalog's style keys. -/
def styleOk (cat : Catalog) (inp : SnippetInput) : Bool :=
  match inp.style with
  | some y => cat.styles.contains y
  | none => true

/-- `serializer.is_valid()` over the model-derived fields of
`SnippetSerializer`: required non-blank `code`, bounded `title`, and
catalog membership for the supplied choice fields. -/
def validInput (cat : Catalog) (inp : SnippetInput) : Bool :=
  codeProvided inp && titleOk inp && languageOk cat inp && styleOk cat inp

/-- `Snippet.objects.create(**validated_data, owner=request.user)` followed
by `Snippet.save`: missing fields take the model defaults (`''`, `False`,
`'python'`, `'friendly'`), `owner` comes from the authenticated requester,
`id` and `created` are system-assigned, and `highlighted` is recomputed. -/
def snippetCreate (st : Store) (requester : Nat) (inp : SnippetInput) : SnippetRec × Store :=
  let title := inp.title.getD ""
  let code := inp.code.getD ""
  let linenos := inp.linenos.getD false
  let language := inp.language.getD "python"
  let style := inp.style.getD "friendly"
  let r : SnippetRec :=
    { id := st.nextId, created := st.clock, owner := requester,
      title := title, code := code, linenos := linenos,
      language := language, style := style,
      highlighted := computeHighlighted code language style title linenos }
  (r, { st with snippets := st.snippets ++ [r], nextId := st.nextId + 1, clock := st.clock + 1 })

/-- The model-serializer `update`: set each attribute present in the
validated data, keep the instance's prior value otherwise, then
`Snippet.save` recomputes `highlighted` from the resulting field values. -/
def snippetUpdate (s : SnippetRec) (inp : SnippetInput) : SnippetRec :=
  let title := inp.title.getD s.title
  let code := inp.code.getD s.code
  let linenos := inp.linenos.getD s.linenos
  let language := inp.language.getD s.language
  let style := inp.style.getD s.style
  { s with title := title, code := code, linenos := linenos,
           language := language, style := style,
           highlighted := computeHighlighted code language style title linenos }

/-- Persisting an updated row: the row with the same primary key is
replaced, every other row is untouched. -/
def storeReplace (st : Store) (r : SnippetRec) : Store :=
  { st with snippets := st.snippets.map (fun s => if s.id == r.id then r else s) }

/-- `instance.delete()`: remove the row with the given primary key. -/
def snippetDelete (st : Store) (pk : Nat) : Store :=
  { st with snippets := st.snippets.filter (fun s => !(s.id == pk)) }

/-- Deleting a user row: the `owner` foreign key is declared with
`on_delete=models.CASCADE` (`models.py`), so every snippet row referencing
the deleted user is removed with it. -/
def deleteUser (st : Store) (uid : Nat) : Store :=
  { st with users := st.users.filter (fun u => !(u.id == uid)),
            snippets := st.snippets.filter (fun s => !(s.owner == uid)) }

/-- A serialized scalar value in the wire representation. -/
inductive FieldVal
  | str (s : String)
  | int (n : Nat)
  | bool (b : Bool)
deriving DecidableEq

/-- The `Meta.fields` list declared on `SnippetSerializer`
(`serializers.py`): note the accidental duplicate `language` entry. -/
def snippetSerializerFields : List String :=
  ["id", "owner", "title", "code", "linenos", "language", "language", "style"]

/-- The serializer builds its fields into a dictionary keyed by name, so a
duplicate entry in `Meta.fields` collapses to its first position. -/
def dedupKeys (seen : List String) : List String → List String
  | [] => []
  | f :: rest =>
      if seen.contains f then dedupKeys seen rest
      else f :: dedupKeys (f :: seen) rest

/-- The value each declared serializer field takes on an instance; `owner`
is the read-only `owner.username` traversal. -/
def snippetFieldValue (st : Store) (s : SnippetRec) (field : String) : FieldVal :=
  if field = "id" then FieldVal.int s.id
  else if field = "owner" then FieldVal.str (usernameOf st s.owner)
  else if field = "title" then FieldVal.str s.title
  else if field = "code" then FieldVal.str s.code
  else if field = "linenos" then FieldVal.bool s.linenos
  else if field = "language" then FieldVal.str s.language
  else if field = "style" then FieldVal.str s.style
  else FieldVal.str ""

/-- `SnippetSerializer(instance).data`: the declared fields, collapsed to
one entry per name, each mapped to its value on the instance. -/
def serializeSnippet (st : Store) (s : SnippetRec) : List (String × FieldVal) :=
  (dedupKeys [] snippetSerializerFields).map (fun f => (f, snippetFieldValue st s f))

/-- HTTP request methods reaching the snippet views. -/
inductive Method
  | get
  | head
  | options
  | post
  | put
  | delete
deriving DecidableEq

/-- The framework's tuple of safe (read-only) methods. -/
def SAFE_METHODS : List Method := [Method.get, Method.head, Method.options]

/-- The requesting identity: an authenticated user id, or anonymous. -/
def Requester : Type := Option Nat

/-- The framework permission `IsAuthenticatedOrReadOnly` applied on both
snippet views: safe methods always pass, unsafe methods require an
authenticated requester. -/
def isAuthenticatedOrReadOnly (m : Method) (requester : Option Nat) : Bool :=
  SAFE_METHODS.contains m || requester.isSome

/-- `IsOwnerOrReadOnly.has_object_permission` (`permissions.py`): safe
methods always pass; write permission requires the requesting user to equal
the snippet's owner (an anonymous requester equals no user row). -/
def has_object_permission (m : Method) (requester : Option Nat) (objOwner : Nat) : Bool :=
  if SAFE_METHODS.contains m then true
  else
    match requester with
    | some uid => objOwner == uid
    | none => false

/-- Outcome of one HTTP request against a snippet view. -/
inductive HttpResult
  | ok (status : Nat) (body : List (String × FieldVal))
  | okList (status : Nat) (body : List (List (String × FieldVal)))
  | noContent
  | badRequest
  | unauthorized
  | forbidden
  | notFound
  | methodNotAllowed
deriving DecidableEq

/-- The framework's `permission_denied`: a failed permission check yields
401 for an anonymous requester and 403 for an authenticated one. -/
def permissionDenied (requester : Option Nat) : HttpResult :=
  match requester with
  | none => HttpResult.unauthorized
  | some _ => HttpResult.forbidden

/-- Whether an outcome is a success (2xx) response. -/
def isSuccess : HttpResult → Bool
  | HttpResult.ok _ _ => true
  | HttpResult.okList _ _ => true
  | HttpResult.noContent => true
  | _ => false

/-- The ordering relation declared by `Snippet.Meta.ordering = ['created']`. -/
def createdLE (a b : SnippetRec) : Prop := a.created ≤ b.created

instance : DecidableRel createdLE := fun a b => Nat.decLe a.created b.created

instance : IsTotal SnippetRec createdLE := ⟨fun a b => Nat.le_total a.created b.created⟩

instance : IsTrans SnippetRec createdLE := ⟨fun _ _ _ hab hbc => Nat.le_trans hab hbc⟩

/-- The list view's queryset: all snippet rows ordered by `created`
ascending, per `Snippet.Meta.ordering`. -/
def listSnippets (st : Store) : List SnippetRec :=
  List.insertionSort createdLE st.snippets

/-- The `SnippetList` view (`views.py`): `IsAuthenticatedOrReadOnly` is
checked first; `GET` lists the ordered queryset; `POST` validates the
input, then `perform_create` saves with `owner=request.user` and the
created record is returned with status 201. -/
def snippetListRequest (cat : Catalog) (st : Store) (m : Method) (requester : Option Nat)
    (inp : SnippetInput) : HttpResult × Store :=
  if !(isAuthenticatedOrReadOnly m requester) then (permissionDenied requester, st)
  else
    match m with
    | Method.get => (HttpResult.okList 200 ((listSnippets st).map (serializeSnippet st)), st)
    | Method.post =>
        if validInput cat inp then
          match requester with
          | some uid =>
              let rs := snippetCreate st uid inp
              (HttpResult.ok 201 (serializeSnippet rs.2 rs.1), rs.2)
          | none => (HttpResult.unauthorized, st)
        else (HttpResult.badRequest, st)
    | _ => (HttpResult.methodNotAllowed, st)

/-- The `SnippetDetail` view (`views.py`): view-level permission check,
then `get_object` (404 when the primary key is absent), then the
object-level `IsOwnerOrReadOnly` check, then the retrieve / update /
destroy handler. -/
def snippetDetailRequest (cat : Catalog) (st : Store) (m : Method) (requester : Option Nat)
    (pk : Nat) (inp : SnippetInput) : HttpResult × Store :=
  if !(isAuthenticatedOrReadOnly m requester) then (permissionDenied requester, st)
  else
    match getSnippet st pk with
    | none => (HttpResult.notFound, st)
    | some s =>
        if !(has_object_permission m requester s.owner) then (permissionDenied requester, st)
        else
          match m with
          | Method.get => (HttpResult.ok 200 (serializeSnippet st s), st)
          | Method.put =>
              if validInput cat inp then
                let s2 := snippetUpdate s inp
                let st2 := storeReplace st s2
                (HttpResult.ok 200 (serializeSnippet st2 s2), st2)
              else (HttpResult.badRequest, st)
          | Method.delete => (HttpResult.noContent, snippetDelete st pk)
          | _ => (HttpResult.methodNotAllowed, st)

/-- Store states reachable from a fresh database by any sequence of
requests against the snippet views, plus external user deletion. -/
inductive Reachable (cat : Catalog) : Store → Prop
  | init (users : List User) : Reachable cat (initStore users)
  | listStep (st : Store) (m : Method) (requester : Option Nat) (inp : SnippetInput) :
      Reachable cat st → Reachable cat (snippetListRequest cat st m requester inp).2
  | detailStep (st : Store) (m : Method) (requester : Option Nat) (pk : Nat) (inp : SnippetInput) :
      Reachable cat st → Reachable cat (snippetDetailRequest cat st m requester pk inp).2
  | userDelete (st : Store) (uid : Nat) :
      Reachable cat st → Reachable cat (deleteUser st uid)

/-- A catalog for concrete examples: a few language keys and style keys,
containing the model defaults. -/
def exCatalog : Catalog :=
  { languages := ["javascript", "python", "ruby"],
    styles := ["autumn", "colorful", "friendly"] }

/-- A store whose identity table holds the single user `admin`. -/
def adminStore : Store := initStore [{ id := 1, username := "admin" }]

/-- The create payload of the spec's worked example:
`{code:"print(123)", language:"python"}`. -/
def c4Input : SnippetInput :=
  { title := none, code := some "print(123)", linenos := none,
    language := some "python", style := none, owner := none }

/-- The title payload of the spec counterexample discussion: 101 characters. -/
def longTitle : String := String.mk (List.replicate 101 'x')

/-- A create payload whose only flaw is a title longer than 100 characters. -/
def cexInput : SnippetInput :=
  { title := some longTitle, code := some "print(123)", linenos := none,
    language := some "python", style := some "friendly", owner := none }

/-- The store after `admin` creates the worked example's snippet. -/
def exStore1 : Store :=
  (snippetListRequest exCatalog adminStore Method.post (some 1) c4Input).2

/-- The record created by the worked example's request. -/
def exRec1 : SnippetRec := (snippetCreate adminStore 1 c4Input).1

/-- An update payload carrying a language key outside the catalog. -/
def badLangInput : SnippetInput :=
  { title := none, code := some "print(7)", linenos := none,
    language := some "klingon", style := none, owner := none }

/-- The consistency invariant of the derived field: every stored row's
`highlighted` is the rendering of its current field values. -/
def HighlightInv (st : Store) : Prop :=
  ∀ s ∈ st.snippets,
    s.highlighted = computeHighlighted s.code s.language s.style s.title s.linenos

theorem snippetListRequest_store (cat : Catalog) (st : Store) (m : Method)
    (requester : Option Nat) (inp : SnippetInput) :
    (snippetListRequest cat st m requester inp).2 = st
    ∨ ∃ uid, requester = some uid ∧
        (snippetListRequest cat st m requester inp).2 = (snippetCreate st uid inp).2 := by
  unfold snippetListRequest
  split
  · exact Or.inl rfl
  · split
    · exact Or.inl rfl
    · split
      · split
        · rename_i uid hgate
          exact Or.inr ⟨uid, rfl, rfl⟩
        · exact Or.inl rfl
      · exact Or.inl rfl
    · exact Or.inl rfl

theorem snippetDetailRequest_store (cat : Catalog) (st : Store) (m : Method)
    (requester : Option Nat) (pk : Nat) (inp : SnippetInput) :
    (snippetDetailRequest cat st m requester pk inp).2 = st
    ∨ (∃ s, getSnippet st pk = some s ∧
        (snippetDetailRequest cat st m requester pk inp).2 = storeReplace st (snippetUpdate s inp))
    ∨ (snippetDetailRequest cat st m requester pk inp).2 = snippetDelete st pk := by
  unfold snippetDetailRequest
  split
  · exact Or.inl rfl
  · split
    · exact Or.inl rfl
    · rename_i s hg
      split
      · exact Or.inl rfl
      · split
        · exact Or.inl rfl
        · split
          · exact Or.inr (Or.inl ⟨s, hg, rfl⟩)
          · exact Or.inl rfl
        · exact Or.inr (Or.inr rfl)
        · exact Or.inl rfl

theorem highlightInv_create (st : Store) (uid : Nat) (inp : SnippetInput)
    (h : HighlightInv st) : HighlightInv (snippetCreate st uid inp).2 := by
  intro s hs
  simp only [snippetCreate, List.mem_append, List.mem_singleton] at hs
  rcases hs with hs | rfl
  · exact h s hs
  · rfl

theorem highlightInv_update (st : Store) (s0 : SnippetRec) (inp : SnippetInput)
    (h : HighlightInv st) : HighlightInv (storeReplace st (snippetUpdate s0 inp)) := by
  intro s hs
  simp only [storeReplace, List.mem_map] at hs
  rcases hs with ⟨t, ht, rfl⟩
  by_cases hid : (t.id == (snippetUpdate s0 inp).id) = true
  · simp only [hid, if_true]
    rfl
  · simp only [hid, if_false, Bool.false_eq_true]
    exact h t ht

theorem highlightInv_delete (st : Store) (pk : Nat)
    (h : HighlightInv st) : HighlightInv (snippetDelete st pk) := by
  intro s hs
  exact h s (List.mem_of_mem_filter hs)

theorem highlightInv_userDelete (st : Store) (uid : Nat)
    (h : HighlightInv st) : HighlightInv (deleteUser st uid) := by
  intro s hs
  exact h s (List.mem_of_mem_filter hs)

theorem reachable_highlightInv (cat : Catalog) (st : Store) (h : Reachable cat st) :
    HighlightInv st := by
  induction h with
  | init users =>
      intro s hs
      simp [initStore] at hs
  | listStep st m requester inp _ ih =>
      rcases snippetListRequest_store cat st m requester inp with heq | ⟨uid, _, heq⟩
      · rw [heq]; exact ih
      · rw [heq]; exact highlightInv_create st uid inp ih
  | detailStep st m requester pk inp _ ih =>
      rcases snippetDetailRequest_store cat st m requester pk inp with
        heq | ⟨s0, _, heq⟩ | heq
      · rw [heq]; exact ih
      · rw [heq]; exact highlightInv_update st s0 inp ih
      · rw [heq]; exact highlightInv_delete st pk ih
  | userDelete st uid _ ih =>
      exact highlightInv_userDelete st uid ih

theorem highlight_isFullDocument (code lexerName : String) (fmt : HtmlFormatter) :
    ∃ mid, highlight code lexerName fmt = docOpen ++ mid ++ docClose := by
  refine ⟨headBlock fmt.title ++ (headingBlock fmt.title ++ codeBlock code lexerName fmt), ?_⟩
  unfold highlight
  simp [String.append_assoc]

theorem highlight_heading (code lexerName : String) (fmt : HtmlFormatter) (t : String)
    (h : fmt.title = some t) :
    ∃ pre post, highlight code lexerName fmt = pre ++ ("<h2>" ++ t ++ "</h2>\n") ++ post := by
  refine ⟨docOpen ++ headBlock fmt.title, codeBlock code lexerName fmt ++ docClose, ?_⟩
  unfold highlight headingBlock
  rw [h]
  simp [String.append_assoc]

theorem find?_replace (r : SnippetRec) :
    ∀ l : List SnippetRec, (l.find? (fun t => t.id == r.id)).isSome = true →
      (l.map (fun t => if t.id == r.id then r else t)).find? (fun t => t.id == r.id) = some r := by
  intro l
  induction l with
  | nil => simp
  | cons a l ih =>
      by_cases ha : (a.id == r.id) = true
      · intro _
        simp [List.find?, ha]
      · intro h
        simp only [List.map_cons, List.find?, ha, if_false, Bool.false_eq_true] at h ⊢
        exact ih h

theorem find?_deleted (pk : Nat) (l : List SnippetRec) :
    (l.filter (fun t => !(t.id == pk))).find? (fun t => t.id == pk) = none := by
  rw [List.find?_eq_none]
  intro x hx
  have := (List.mem_filter.mp hx).2
  simp at this
  simp [this]

theorem validInput_false_iff (cat : Catalog) (inp : SnippetInput) :
    validInput cat inp = false ↔
      (inp.code = none ∨ inp.code = some ""
      ∨ (∃ t, inp.title = some t ∧ 100 < t.length)
      ∨ (∃ l, inp.language = some l ∧ cat.languages.contains l = false)
      ∨ (∃ y, inp.style = some y ∧ cat.styles.contains y = false)) := by
  unfold validInput codeProvided titleOk languageOk styleOk
  rcases hc : inp.code with _ | c <;> rcases ht : inp.title with _ | t <;>
    rcases hl : inp.language with _ | l <;> rcases hy : inp.style with _ | y <;>
      (simp; try simp only [← Nat.not_le]) <;> tauto

theorem auth_get (requester : Option Nat) :
    isAuthenticatedOrReadOnly Method.get requester = true := rfl

theorem perm_get (requester : Option Nat) (owner : Nat) :
    has_object_permission Method.get requester owner = true := rfl

theorem perm_put_some (uid owner : Nat) :
    has_object_permission Method.put (some uid) owner = (owner == uid) := rfl

theorem perm_delete_some (uid owner : Nat) :
    has_object_permission Method.delete (some uid) owner = (owner == uid) := rfl

theorem auth_put_some (uid : Nat) :
    isAuthenticatedOrReadOnly Method.put (some uid) = true := rfl

theorem auth_delete_some (uid : Nat) :
    isAuthenticatedOrReadOnly Method.delete (some uid) = true := rfl

theorem auth_post_some (uid : Nat) :
    isAuthenticatedOrReadOnly Method.post (some uid) = true := rfl

theorem detail_put_owner (cat : Catalog) (st : Store) (pk : Nat) (s : SnippetRec)
    (inp : SnippetInput) (hs : getSnippet st pk = some s) :
    snippetDetailRequest cat st Method.put (some s.owner) pk inp
      = if validInput cat inp
        then (HttpResult.ok 200
                (serializeSnippet (storeReplace st (snippetUpdate s inp)) (snippetUpdate s inp)),
              storeReplace st (snippetUpdate s inp))
        else (HttpResult.badRequest, st) := by
  have hperm : has_object_permission Method.put (some s.owner) s.owner = true := by
    rw [perm_put_some]; simp
  simp [snippetDetailRequest, auth_put_some, hs, hperm]

theorem detail_delete_owner (cat : Catalog) (st : Store) (pk : Nat) (s : SnippetRec)
    (inp : SnippetInput) (hs : getSnippet st pk = some s) :
    snippetDetailRequest cat st Method.delete (some s.owner) pk inp
      = (HttpResult.noContent, snippetDelete st pk) := by
  have hperm : has_object_permission Method.delete (some s.owner) s.owner = true := by
    rw [perm_delete_some]; simp
  simp [snippetDetailRequest, auth_delete_some, hs, hperm]

theorem list_post_auth (cat : Catalog) (st : Store) (uid : Nat) (inp : SnippetInput) :
    snippetListRequest cat st Method.post (some uid) inp
      = if validInput cat inp
        then (HttpResult.ok 201
                (serializeSnippet (snippetCreate st uid inp).2 (snippetCreate st uid inp).1),
              (snippetCreate st uid inp).2)
        else (HttpResult.badRequest, st) := by
  simp [snippetListRequest, auth_post_some]

theorem getSnippet_after_update (st : Store) (pk : Nat) (s : SnippetRec) (inp : SnippetInput)
    (hs : getSnippet st pk = some s) :
    getSnippet (storeReplace st (snippetUpdate s inp)) pk = some (snippetUpdate s inp) := by
  have hid : (snippetUpdate s inp).id = pk := by
    have := List.find?_some hs
    simpa using this
  rw [← hid] at hs ⊢
  unfold getSnippet at hs ⊢
  unfold storeReplace
  exact find?_replace (snippetUpdate s inp) st.snippets (by rw [hs]; rfl)

/-- Claim C1: mutating requests succeed only for the authenticated owner
(or create by any authenticated user); other authenticated identities get
403, anonymous identities get 401, and read-only requests always pass. -/
theorem C1_ownership_outcomes (cat : Catalog) (st : Store) (pk : Nat) (s : SnippetRec)
    (inp : SnippetInput) (hs : getSnippet st pk = some s) :
    ((snippetDetailRequest cat st Method.put none pk inp).1 = HttpResult.unauthorized
      ∧ (snippetDetailRequest cat st Method.delete none pk inp).1 = HttpResult.unauthorized
      ∧ (snippetListRequest cat st Method.post none inp).1 = HttpResult.unauthorized)
    ∧ (∀ uid : Nat, uid ≠ s.owner →
        (snippetDetailRequest cat st Method.put (some uid) pk inp).1 = HttpResult.forbidden
        ∧ (snippetDetailRequest cat st Method.delete (some uid) pk inp).1 = HttpResult.forbidden)
    ∧ (∀ (requester : Option Nat) (m : Method), m = Method.put ∨ m = Method.delete →
        isSuccess (snippetDetailRequest cat st m requester pk inp).1 = true →
        requester = some s.owner)
    ∧ (∀ uid : Nat, validInput cat inp = true →
        isSuccess (snippetListRequest cat st Method.post (some uid) inp).1 = true)
    ∧ (∀ requester : Option Nat,
        (snippetDetailRequest cat st Method.get requester pk inp).1
          = HttpResult.ok 200 (serializeSnippet st s)
        ∧ (snippetListRequest cat st Method.get requester inp).1
          = HttpResult.okList 200 ((listSnippets st).map (serializeSnippet st))) := by
  refine ⟨⟨rfl, rfl, rfl⟩, ?_, ?_, ?_, ?_⟩
  · intro uid huid
    have hperm1 : has_object_permission Method.put (some uid) s.owner = false := by
      rw [perm_put_some]
      simp
      exact fun h => huid h.symm
    have hperm2 : has_object_permission Method.delete (some uid) s.owner = false := by
      rw [perm_delete_some]
      simp
      exact fun h => huid h.symm
    constructor
    · simp [snippetDetailRequest, auth_put_some, hs, hperm1, permissionDenied]
    · simp [snippetDetailRequest, auth_delete_some, hs, hperm2, permissionDenied]
  · intro requester m hm hsucc
    rcases hm with rfl | rfl <;> rcases requester with _ | uid
    · rw [show (snippetDetailRequest cat st Method.put none pk inp).1
          = HttpResult.unauthorized from rfl] at hsucc
      simp [isSuccess] at hsucc
    · by_cases h : uid = s.owner
      · rw [h]
      · have hperm : has_object_permission Method.put (some uid) s.owner = false := by
          rw [perm_put_some]
          simp
          exact fun hh => h hh.symm
        simp [snippetDetailRequest, auth_put_some, hs, hperm, permissionDenied, isSuccess] at hsucc
    · rw [show (snippetDetailRequest cat st Method.delete none pk inp).1
          = HttpResult.unauthorized from rfl] at hsucc
      simp [isSuccess] at hsucc
    · by_cases h : uid = s.owner
      · rw [h]
      · have hperm : has_object_permission Method.delete (some uid) s.owner = false := by
          rw [perm_delete_some]
          simp
          exact fun hh => h hh.symm
        simp [snippetDetailRequest, auth_delete_some, hs, hperm, permissionDenied, isSuccess] at hsucc
  · intro uid hv
    simp [snippetListRequest, auth_post_some, hv, isSuccess]
  · intro requester
    constructor
    · simp [snippetDetailRequest, auth_get, hs, perm_get]
    · simp [snippetListRequest, auth_get]

/-- Claim C2: after every write, `highlighted` equals the highlighter's
rendering of the record's current `code`, `language`, `style`, `linenos`,
`title` (it is recomputed on each write and has no client input channel),
and that rendering is a complete self-contained HTML document embedding a
title heading exactly when `title` is non-empty. -/
theorem C2_highlighted_consistent (cat : Catalog) (st : Store) (h : Reachable cat st) :
    ∀ s ∈ st.snippets,
      s.highlighted = computeHighlighted s.code s.language s.style s.title s.linenos
      ∧ (∃ mid, s.highlighted = docOpen ++ mid ++ docClose)
      ∧ (s.title ≠ "" → ∃ pre post,
          s.highlighted = pre ++ ("<h2>" ++ s.title ++ "</h2>\n") ++ post)
      ∧ (s.title = "" → s.highlighted
          = highlight s.code s.language
              { style := s.style, linenos := s.linenos, full := true, title := none }) := by
  intro s hsmem
  have hinv := reachable_highlightInv cat st h s hsmem
  refine ⟨hinv, ?_, ?_, ?_⟩
  · rw [hinv]
    exact highlight_isFullDocument s.code s.language _
  · intro hne
    rw [hinv]
    exact highlight_heading s.code s.language _ s.title (by simp [saveTitleOptions, hne])
  · intro he
    rw [hinv]
    unfold computeHighlighted
    rw [show saveTitleOptions s.title = none from by simp [saveTitleOptions, he]]

/-- Claim C3: on update, each omitted client-writable field keeps its prior
stored value, and an invalid `language` or `style` rejects the update
entirely with the store unchanged. -/
theorem C3_update_semantics (cat : Catalog) (st : Store) (pk : Nat) (s : SnippetRec)
    (inp : SnippetInput) (hs : getSnippet st pk = some s) :
    (∀ l, inp.language = some l → cat.languages.contains l = false →
        snippetDetailRequest cat st Method.put (some s.owner) pk inp = (HttpResult.badRequest, st))
    ∧ (∀ y, inp.style = some y → cat.styles.contains y = false →
        snippetDetailRequest cat st Method.put (some s.owner) pk inp = (HttpResult.badRequest, st))
    ∧ (∃ r, getSnippet (snippetDetailRequest cat st Method.put (some s.owner) pk inp).2 pk = some r
        ∧ (inp.title = none → r.title = s.title)
        ∧ (inp.code = none → r.code = s.code)
        ∧ (inp.linenos = none → r.linenos = s.linenos)
        ∧ (inp.language = none → r.language = s.language)
        ∧ (inp.style = none → r.style = s.style)) := by
  refine ⟨?_, ?_, ?_⟩
  · intro l hl hcon
    have hv : validInput cat inp = false := by
      rw [validInput_false_iff]
      exact Or.inr (Or.inr (Or.inr (Or.inl ⟨l, hl, hcon⟩)))
    rw [detail_put_owner cat st pk s inp hs, hv]
    simp
  · intro y hy hcon
    have hv : validInput cat inp = false := by
      rw [validInput_false_iff]
      exact Or.inr (Or.inr (Or.inr (Or.inr ⟨y, hy, hcon⟩)))
    rw [detail_put_owner cat st pk s inp hs, hv]
    simp
  · by_cases hv : validInput cat inp = true
    · refine ⟨snippetUpdate s inp, ?_, ?_, ?_, ?_, ?_, ?_⟩
      · rw [detail_put_owner cat st pk s inp hs, if_pos hv]
        exact getSnippet_after_update st pk s inp hs
      · intro h0; simp [snippetUpdate, h0]
      · intro h0; simp [snippetUpdate, h0]
      · intro h0; simp [snippetUpdate, h0]
      · intro h0; simp [snippetUpdate, h0]
      · intro h0; simp [snippetUpdate, h0]
    · refine ⟨s, ?_, fun _ => rfl, fun _ => rfl, fun _ => rfl, fun _ => rfl, fun _ => rfl⟩
      rw [detail_put_owner cat st pk s inp hs, if_neg hv]
      exact hs

/-- Claim C5: in every reachable store state, listing returns the full set
of stored snippets ordered by `created` ascending. -/
theorem C5_listing_ordered (cat : Catalog) (st : Store) (_h : Reachable cat st) :
    List.Sorted createdLE (listSnippets st) ∧ List.Perm (listSnippets st) st.snippets :=
  ⟨List.sorted_insertionSort createdLE st.snippets, List.perm_insertionSort createdLE st.snippets⟩

/-- Claim C4: the wire representation of a snippet consists exactly of
`id`, `owner` (username), `title`, `code`, `linenos`, `language`, `style`,
each exactly once, with no `highlighted` field; the worked create example
returns the documented body with status 201. -/
theorem C4_wire_shape :
    (snippetListRequest exCatalog adminStore Method.post (some 1) c4Input).1
      = HttpResult.ok 201
          [("id", FieldVal.int 1), ("owner", FieldVal.str "admin"),
           ("title", FieldVal.str ""), ("code", FieldVal.str "print(123)"),
           ("linenos", FieldVal.bool false), ("language", FieldVal.str "python"),
           ("style", FieldVal.str "friendly")]
    ∧ (∀ (st : Store) (s : SnippetRec),
        (serializeSnippet st s).map Prod.fst
          = ["id", "owner", "title", "code", "linenos", "language", "style"])
    ∧ (∀ (st : Store) (s : SnippetRec), ((serializeSnippet st s).map Prod.fst).Nodup)
    ∧ (∀ (st : Store) (s : SnippetRec) (fv : String × FieldVal),
        fv ∈ serializeSnippet st s → fv.1 ≠ "highlighted") := by
  refine ⟨by decide, fun st s => rfl, fun st s => ?_, fun st s fv hfv => ?_⟩
  · exact (by decide :
      (["id", "owner", "title", "code", "linenos", "language", "style"] : List String).Nodup)
  · have hser : serializeSnippet st s
        = [("id", snippetFieldValue st s "id"), ("owner", snippetFieldValue st s "owner"),
           ("title", snippetFieldValue st s "title"), ("code", snippetFieldValue st s "code"),
           ("linenos", snippetFieldValue st s "linenos"),
           ("language", snippetFieldValue st s "language"),
           ("style", snippetFieldValue st s "style")] := rfl
    rw [hser] at hfv
    simp only [List.mem_cons, List.not_mem_nil, or_false] at hfv
    rcases hfv with rfl | rfl | rfl | rfl | rfl | rfl | rfl <;> simp

/-- Claim C6: `owner` is set at creation to the authenticated requester,
client-supplied owner values are ignored by create and update, and `id`,
`created`, `owner` are unchanged by updates. -/
theorem C6_owner_immutable (cat : Catalog) (st : Store) (pk : Nat) (s : SnippetRec)
    (inp : SnippetInput) (uid : Nat) (v : Option String)
    (hs : getSnippet st pk = some s) :
    (snippetCreate st uid inp).1.owner = uid
    ∧ (snippetCreate st uid inp).1.id = st.nextId
    ∧ (snippetCreate st uid inp).1.created = st.clock
    ∧ snippetListRequest cat st Method.post (some uid) { inp with owner := v }
        = snippetListRequest cat st Method.post (some uid) { inp with owner := none }
    ∧ snippetDetailRequest cat st Method.put (some uid) pk { inp with owner := v }
        = snippetDetailRequest cat st Method.put (some uid) pk { inp with owner := none }
    ∧ (∀ r, getSnippet (snippetDetailRequest cat st Method.put (some s.owner) pk inp).2 pk = some r →
        r.id = s.id ∧ r.created = s.created ∧ r.owner = s.owner) := by
  refine ⟨rfl, rfl, rfl, ?_, ?_, ?_⟩
  · cases inp; rfl
  · cases inp; rfl
  · intro r hr
    by_cases hv : validInput cat inp = true
    · rw [detail_put_owner cat st pk s inp hs, if_pos hv] at hr
      simp only [] at hr
      rw [getSnippet_after_update st pk s inp hs] at hr
      injection hr with h0
      subst h0
      exact ⟨rfl, rfl, rfl⟩
    · rw [detail_put_owner cat st pk s inp hs, if_neg hv] at hr
      simp only [] at hr
      rw [hs] at hr
      injection hr with h0
      subst h0
      exact ⟨rfl, rfl, rfl⟩

/-- Counterexample to claim C7 as stated: a create whose `code` is present,
whose effective language and style are in the catalogs, but whose title has
101 characters still fails with a 400 validation outcome. -/
theorem C7_counterexample :
    (snippetListRequest exCatalog adminStore Method.post (some 1) cexInput).1
        = HttpResult.badRequest
    ∧ cexInput.code = some "print(123)"
    ∧ exCatalog.languages.contains (cexInput.language.getD "python") = true
    ∧ exCatalog.styles.contains (cexInput.style.getD "friendly") = true := by
  refine ⟨?_, rfl, rfl, rfl⟩
  decide

/-- Claim C7 (amended): an authenticated create fails with a 400 validation
outcome iff `code` is missing or blank, a supplied `language` or `style` is
outside its catalog, or a supplied `title` exceeds 100 characters; on such
a failure no record is created. -/
theorem C7_create_validation (cat : Catalog) (st : Store) (uid : Nat) (inp : SnippetInput) :
    ((snippetListRequest cat st Method.post (some uid) inp).1 = HttpResult.badRequest
      ↔ (inp.code = none ∨ inp.code = some ""
        ∨ (∃ t, inp.title = some t ∧ 100 < t.length)
        ∨ (∃ l, inp.language = some l ∧ cat.languages.contains l = false)
        ∨ (∃ y, inp.style = some y ∧ cat.styles.contains y = false)))
    ∧ ((snippetListRequest cat st Method.post (some uid) inp).1 = HttpResult.badRequest →
        (snippetListRequest cat st Method.post (some uid) inp).2 = st) := by
  rw [list_post_auth cat st uid inp]
  by_cases hv : validInput cat inp = true
  · rw [if_pos hv]
    have hnr : ¬(inp.code = none ∨ inp.code = some ""
        ∨ (∃ t, inp.title = some t ∧ 100 < t.length)
        ∨ (∃ l, inp.language = some l ∧ cat.languages.contains l = false)
        ∨ (∃ y, inp.style = some y ∧ cat.styles.contains y = false)) := by
      rw [← validInput_false_iff cat inp]
      simp [hv]
    exact ⟨⟨fun hbad => absurd hbad (by simp), fun hrhs => absurd hrhs hnr⟩,
      fun hbad => absurd hbad (by simp)⟩
  · have hv' : validInput cat inp = false := by
      revert hv
      cases validInput cat inp <;> simp
    rw [if_neg hv]
    refine ⟨?_, fun _ => rfl⟩
    rw [← validInput_false_iff cat inp]
    simp [hv']

/-- Claim C8: delete removes exactly the addressed record; a subsequent get
or second delete of the same id yields 404, and deleting an absent id
yields 404 with the store unchanged. -/
theorem C8_delete_semantics (cat : Catalog) (st : Store) (pk : Nat) (s : SnippetRec)
    (inp inp2 : SnippetInput) (hs : getSnippet st pk = some s) :
    (snippetDetailRequest cat st Method.delete (some s.owner) pk inp).1 = HttpResult.noContent
    ∧ (∀ r : SnippetRec,
        r ∈ (snippetDetailRequest cat st Method.delete (some s.owner) pk inp).2.snippets
          ↔ (r ∈ st.snippets ∧ r.id ≠ pk))
    ∧ getSnippet (snippetDetailRequest cat st Method.delete (some s.owner) pk inp).2 pk = none
    ∧ (snippetDetailRequest cat
        (snippetDetailRequest cat st Method.delete (some s.owner) pk inp).2
        Method.get (some s.owner) pk inp2).1 = HttpResult.notFound
    ∧ (snippetDetailRequest cat
        (snippetDetailRequest cat st Method.delete (some s.owner) pk inp).2
        Method.delete (some s.owner) pk inp2).1 = HttpResult.notFound
    ∧ (∀ (st2 : Store) (uid q : Nat), getSnippet st2 q = none →
        snippetDetailRequest cat st2 Method.delete (some uid) q inp2 = (HttpResult.notFound, st2)) := by
  have hdel := detail_delete_owner cat st pk s inp hs
  have hnone : getSnippet (snippetDelete st pk) pk = none := by
    unfold getSnippet snippetDelete
    exact find?_deleted pk st.snippets
  refine ⟨?_, ?_, ?_, ?_, ?_, ?_⟩
  · rw [hdel]
  · intro r
    rw [hdel]
    simp [snippetDelete, List.mem_filter]
  · rw [hdel]
    exact hnone
  · rw [hdel]
    simp [snippetDetailRequest, auth_get, hnone]
  · rw [hdel]
    simp [snippetDetailRequest, auth_delete_some, hnone]
  · intro st2 uid q hq
    simp [snippetDetailRequest, auth_delete_some, hq]

/-- Claim C9: deleting a user cascades to its snippets — afterwards a
snippet remains stored iff it was stored and not owned by the deleted user,
and likewise for user rows. -/
theorem C9_cascade (st : Store) (uid : Nat) :
    (∀ s : SnippetRec, s ∈ (deleteUser st uid).snippets ↔ (s ∈ st.snippets ∧ s.owner ≠ uid))
    ∧ (∀ u : User, u ∈ (deleteUser st uid).users ↔ (u ∈ st.users ∧ u.id ≠ uid)) := by
  constructor <;> intro x <;> simp [deleteUser, List.mem_filter]

/-- Claim C10: a supplied title longer than 100 characters makes create and
update fail with 400 and no write, while a title of at most 100 characters
(blank included) passes validation whenever the other fields are valid. -/
theorem C10_title_length (cat : Catalog) (st : Store) (uid pk : Nat) (s : SnippetRec)
    (inp : SnippetInput) (t : String)
    (hs : getSnippet st pk = some s) (ht : inp.title = some t) :
    (100 < t.length →
        snippetListRequest cat st Method.post (some uid) inp = (HttpResult.badRequest, st)
        ∧ snippetDetailRequest cat st Method.put (some s.owner) pk inp
            = (HttpResult.badRequest, st))
    ∧ (t.length ≤ 100 → codeProvided inp = true → languageOk cat inp = true →
        styleOk cat inp = true →
        isSuccess (snippetListRequest cat st Method.post (some uid) inp).1 = true
        ∧ isSuccess (snippetDetailRequest cat st Method.put (some s.owner) pk inp).1 = true) := by
  constructor
  · intro hlong
    have hv : validInput cat inp = false := by
      rw [validInput_false_iff]
      exact Or.inr (Or.inr (Or.inl ⟨t, ht, hlong⟩))
    constructor
    · rw [list_post_auth cat st uid inp, hv]
      simp
    · rw [detail_put_owner cat st pk s inp hs, hv]
      simp
  · intro hshort hcode hlang hsty
    have htt : titleOk inp = true := by
      unfold titleOk
      rw [ht]
      simpa using hshort
    have hv : validInput cat inp = true := by
      unfold validInput
      rw [hcode, hlang, hsty, htt]
      rfl
    constructor
    · rw [list_post_auth cat st uid inp, if_pos hv]
      rfl
    · rw [detail_put_owner cat st pk s inp hs, if_pos hv]
      rfl

/-- Witness for C1 at a concrete store holding the worked example's record. -/
theorem C1_witness :
    (snippetDetailRequest exCatalog exStore1 Method.put none 1 c4Input).1
      = HttpResult.unauthorized :=
  (C1_ownership_outcomes exCatalog exStore1 1 exRec1 c4Input (by decide)).1.1

/-- Witness for C2: the created record's stored rendering is consistent. -/
theorem C2_witness :
    exRec1.highlighted
      = computeHighlighted exRec1.code exRec1.language exRec1.style exRec1.title exRec1.linenos :=
  (C2_highlighted_consistent exCatalog exStore1
    (Reachable.listStep adminStore Method.post (some 1) c4Input
      (Reachable.init [{ id := 1, username := "admin" }]))
    exRec1 (by decide)).1

/-- Witness for C3: an update with an out-of-catalog language is rejected
with the store unchanged. -/
theorem C3_witness :
    snippetDetailRequest exCatalog exStore1 Method.put (some exRec1.owner) 1 badLangInput
      = (HttpResult.badRequest, exStore1) :=
  (C3_update_semantics exCatalog exStore1 1 exRec1 badLangInput (by decide)).1 "klingon" rfl
    (by decide)

/-- Witness for C4: the serialized key list of a concrete record. -/
theorem C4_witness :
    (serializeSnippet adminStore exRec1).map Prod.fst
      = ["id", "owner", "title", "code", "linenos", "language", "style"] :=
  C4_wire_shape.2.1 adminStore exRec1

/-- Witness for C5 at a concrete reachable store. -/
theorem C5_witness :
    List.Sorted createdLE (listSnippets exStore1)
    ∧ List.Perm (listSnippets exStore1) exStore1.snippets :=
  C5_listing_ordered exCatalog exStore1
    (Reachable.listStep adminStore Method.post (some 1) c4Input
      (Reachable.init [{ id := 1, username := "admin" }]))

/-- Witness for C6: a concrete create records the requester as owner. -/
theorem C6_witness :
    (snippetCreate exStore1 1 c4Input).1.owner = 1 :=
  (C6_owner_immutable exCatalog exStore1 1 exRec1 c4Input 1 (some "mallory") (by decide)).1

/-- Witness for C7: the amended validation law applied to the long-title
payload. -/
theorem C7_witness :
    (snippetListRequest exCatalog adminStore Method.post (some 1) cexInput).1
      = HttpResult.badRequest :=
  (C7_create_validation exCatalog adminStore 1 cexInput).1.mpr
    (Or.inr (Or.inr (Or.inl ⟨longTitle, rfl, by decide⟩)))

/-- Witness for C8: a concrete owner delete returns 204. -/
theorem C8_witness :
    (snippetDetailRequest exCatalog exStore1 Method.delete (some exRec1.owner) 1 c4Input).1
      = HttpResult.noContent :=
  (C8_delete_semantics exCatalog exStore1 1 exRec1 c4Input c4Input (by decide)).1

/-- Witness for C9 on a concrete store and record. -/
theorem C9_witness :
    exRec1 ∈ (deleteUser exStore1 1).snippets
      ↔ (exRec1 ∈ exStore1.snippets ∧ exRec1.owner ≠ 1) :=
  (C9_cascade exStore1 1).1 exRec1

/-- Witness for C10: the 101-character title is rejected on a concrete
create with the store unchanged. -/
theorem C10_witness :
    snippetListRequest exCatalog exStore1 Method.post (some 1) cexInput
      = (HttpResult.badRequest, exStore1) :=
  ((C10_title_length exCatalog exStore1 1 1 exRec1 cexInput longTitle (by decide) rfl).1
    (by decide)).1
